import Mathlib

/-!
Verification of the shard-resolution layer, the prepared-transaction pool,
the query-projection analyzer and the per-thread throttler of the Vitess
core, over a shallow embedding of the corresponding Go source files
(`go/vt/key` destinations, `go/vt/vttablet/tabletserver` TxPreparedPool,
`go/vt/vtgate/planbuilder/operators/queryprojection.go`, `go/vt/throttler`).
-/

/-- Error codes used by `vterrors`: `vtrpcpb.Code` values together with the
stable `VTxxxxx` identifiers used by the planner and the tablet server. -/
inductive ErrCode where
  | invalidArgument
  | unavailable
  | resourceExhausted
  | canceled
  | alreadyExists
  | permissionDenied
  | vt03001
  | vt03005
  | vt09025
  | vt12001
  | vt13001
  deriving DecidableEq, Repr

/-- A `vterrors` error value: a code together with a message. -/
structure VtError where
  code : ErrCode
  msg : String
  deriving DecidableEq, Repr

/-- Lexicographic strict order on byte strings, as computed by Go
`bytes.Compare(a, b) < 0` (a byte string is modelled as a `List Nat`). -/
def byteLt : List Nat → List Nat → Bool
  | _, [] => false
  | [], _ :: _ => true
  | a :: as, b :: bs => decide (a < b) || (a == b && byteLt as bs)

/-- `a ≤ b` in the lexicographic byte order: `bytes.Compare(a, b) <= 0`. -/
def byteLE (a b : List Nat) : Bool :=
  ! byteLt b a

theorem byteLt_irrefl (a : List Nat) : byteLt a a = false := by
  induction a with
  | nil => rfl
  | cons x xs ih => simp [byteLt, ih]

theorem byteLt_trans :
    ∀ {a b c : List Nat}, byteLt a b = true → byteLt b c = true → byteLt a c = true := by
  intro a
  induction a with
  | nil =>
    intro b c hab hbc
    cases c with
    | nil => cases b <;> simp [byteLt] at hab hbc
    | cons z zs => simp [byteLt]
  | cons x xs ih =>
    intro b c hab hbc
    cases b with
    | nil => simp [byteLt] at hab
    | cons y ys =>
      cases c with
      | nil => simp [byteLt] at hbc
      | cons z zs =>
        simp only [byteLt, Bool.or_eq_true, decide_eq_true_eq, Bool.and_eq_true,
          beq_iff_eq] at hab hbc ⊢
        rcases hab with h1 | ⟨he1, h1⟩
        · rcases hbc with h2 | ⟨he2, _⟩
          · exact Or.inl (Nat.lt_trans h1 h2)
          · exact Or.inl (he2 ▸ h1)
        · rcases hbc with h2 | ⟨he2, h2⟩
          · exact Or.inl (he1 ▸ h2)
          · exact Or.inr ⟨he1.trans he2, ih h1 h2⟩

theorem byteLt_conn :
    ∀ {a b : List Nat}, byteLt a b = false → byteLt b a = false → a = b := by
  intro a
  induction a with
  | nil =>
    intro b hab _
    cases b with
    | nil => rfl
    | cons y ys => simp [byteLt] at hab
  | cons x xs ih =>
    intro b hab hba
    cases b with
    | nil => simp [byteLt] at hba
    | cons y ys =>
      simp only [byteLt, Bool.or_eq_false_iff, decide_eq_false_iff_not,
        Bool.and_eq_false_iff, beq_eq_false_iff_ne, ne_eq] at hab hba
      have hxy : x = y := by
        rcases hab.2 with h | h
        · rcases hba.2 with h' | h'
          · omega
          · omega
        · rcases hba.2 with h' | h'
          · omega
          · have := hab.1; have := hba.1; omega
      subst hxy
      rcases hab.2 with h | h
      · exact absurd rfl h
      · rcases hba.2 with h' | h'
        · exact absurd rfl h'
        · exact congrArg (x :: ·) (ih h h')

/-- Modelled from the spec: the `topodatapb.KeyRange` message
(`go/vt/proto/topodata` is not under src). Per the spec a `KeyRange` is the
half-open byte interval `[start, end)`; the empty byte string denotes
"unbounded" on either side. -/
structure KeyRange where
  start : List Nat
  end_ : List Nat
  deriving DecidableEq, Repr

/-- Modelled from the spec: `KeyRangeContains` of `go/vt/key` is not under
src. Membership of a keyspace id in the half-open interval `[start, end)`,
where an empty `end` is unbounded (an empty `start` is already below every
byte string lexicographically). -/
def KeyRangeContains (kr : KeyRange) (id : List Nat) : Bool :=
  byteLE kr.start id && (kr.end_.isEmpty || byteLt id kr.end_)

/-- Modelled from the spec: `KeyRangeStartEqual` of `go/vt/key` is not under
src; two ranges have equal start boundaries. -/
def KeyRangeStartEqual (a b : KeyRange) : Bool :=
  a.start == b.start

/-- Modelled from the spec: `KeyRangeEndEqual` of `go/vt/key` is not under
src; two ranges have equal end boundaries. -/
def KeyRangeEndEqual (a b : KeyRange) : Bool :=
  a.end_ == b.end_

/-- Modelled from the spec: `KeyRangeIntersect` of `go/vt/key` is not under
src; two half-open intervals overlap, an empty `end` being unbounded. -/
def KeyRangeIntersect (a b : KeyRange) : Bool :=
  (b.end_.isEmpty || byteLt a.start b.end_) && (a.end_.isEmpty || byteLt b.start a.end_)

/-- Modelled from the spec: `KeyRangeLess` of `go/vt/key` is not under src;
ranges are ordered by their start boundary. -/
def KeyRangeLess (a b : KeyRange) : Bool :=
  byteLt a.start b.start

/-- One lowercase hex digit. -/
def hexDigit (n : Nat) : Char :=
  if n < 10 then Char.ofNat (48 + n) else Char.ofNat (87 + n)

/-- Lowercase hex encoding of one byte (Go `hex.EncodeToString` on one byte). -/
def hexByte (b : Nat) : String :=
  String.mk [hexDigit (b / 16 % 16), hexDigit (b % 16)]

/-- Lowercase hex encoding of a byte string (Go `hex.EncodeToString`). -/
def hexString (bs : List Nat) : String :=
  String.join (bs.map hexByte)

/-- Modelled from the spec: `KeyRangeString` of `go/vt/key` is not under src;
the spec gives the shard identifier syntax `start-end` in lowercase hex with
the empty string denoting unbounded. -/
def KeyRangeString (kr : KeyRange) : String :=
  hexString kr.start ++ "-" ++ hexString kr.end_

/-- A `topodatapb.ShardReference`: a shard name together with its key range. -/
structure ShardReference where
  name : String
  keyRange : KeyRange
  deriving DecidableEq, Repr

/-- `GetShardForKeyspaceID` from `go/vt/key/destination.go`: the first shard
of the list whose range contains the keyspace id; `Unavailable` on an empty
shard list, `InvalidArgument` when no shard matches. -/
def GetShardForKeyspaceID (allShards : List ShardReference) (keyspaceID : List Nat) :
    Except VtError String :=
  if allShards.isEmpty then
    .error ⟨.unavailable, "no shard in keyspace"⟩
  else
    match allShards.find? (fun s => KeyRangeContains s.keyRange keyspaceID) with
    | some s => .ok s.name
    | none => .error ⟨.invalidArgument,
        "KeyspaceId " ++ hexString keyspaceID ++ " didn't match any shards"⟩

/-- `coversFrom lo shards` holds when the key ranges of `shards`, in list
order, tile the key space from boundary `lo` up to the unbounded end: each
shard starts where the previous one ended, each non-final end boundary is
strictly above the start, and the final shard is unbounded above. -/
def coversFrom (lo : List Nat) : List ShardReference → Bool
  | [] => false
  | [sh] => sh.keyRange.start == lo && sh.keyRange.end_.isEmpty
  | sh :: rest =>
    sh.keyRange.start == lo && !sh.keyRange.end_.isEmpty &&
      byteLt lo sh.keyRange.end_ && coversFrom sh.keyRange.end_ rest

/-- The shard list partitions the full key space `[0x00…, 0xFF…]` with no
overlap and no gap: it tiles the key space starting from the unbounded
low boundary (the empty byte string). -/
def isPartition (shards : List ShardReference) : Bool :=
  coversFrom [] shards

theorem coversFrom_exists_containing :
    ∀ (shards : List ShardReference) (lo b : List Nat),
      coversFrom lo shards = true → byteLE lo b = true →
      ∃ s ∈ shards, KeyRangeContains s.keyRange b = true := by
  intro shards
  induction shards with
  | nil => intro lo b h _; simp [coversFrom] at h
  | cons sh rest ih =>
    intro lo b h hb
    cases rest with
    | nil =>
      simp only [coversFrom, Bool.and_eq_true, beq_iff_eq] at h
      refine ⟨sh, by simp, ?_⟩
      simp [KeyRangeContains, h.1, h.2, hb]
    | cons sh2 rest2 =>
      simp only [coversFrom, Bool.and_eq_true, beq_iff_eq] at h
      obtain ⟨⟨⟨hstart, _⟩, _⟩, hrest⟩ := h
      by_cases hin : byteLt b sh.keyRange.end_ = true
      · refine ⟨sh, by simp, ?_⟩
        simp [KeyRangeContains, hstart, hb, hin]
      · have hle : byteLE sh.keyRange.end_ b = true := by
          simp only [byteLE, Bool.not_eq_true']
          exact Bool.not_eq_true _ ▸ (by simpa using hin)
        obtain ⟨s, hs, hcont⟩ := ih sh.keyRange.end_ b hrest hle
        exact ⟨s, by simp [hs], hcont⟩

theorem byteLE_nil (b : List Nat) : byteLE [] b = true := by
  cases b <;> rfl


/-- The "not less" relation used by the stable sort in `processExactKeyRange`
(Go `sort.SliceStable` with less = `KeyRangeLess`). -/
def shardLE (a b : ShardReference) : Prop :=
  KeyRangeLess b.keyRange a.keyRange = false

instance : DecidableRel shardLE :=
  fun _ _ => inferInstanceAs (Decidable (_ = false))

instance : IsTotal ShardReference shardLE where
  total a b := by
    unfold shardLE KeyRangeLess
    cases hab : byteLt b.keyRange.start a.keyRange.start
    · exact Or.inl rfl
    · cases hba : byteLt a.keyRange.start b.keyRange.start
      · exact Or.inr rfl
      · have := byteLt_trans hab hba
        rw [byteLt_irrefl] at this
        exact absurd this (by simp)

instance : IsTrans ShardReference shardLE where
  trans a b c hab hbc := by
    unfold shardLE KeyRangeLess at *
    cases hca : byteLt c.keyRange.start a.keyRange.start
    · rfl
    · exfalso
      cases hbcs : byteLt b.keyRange.start c.keyRange.start
      · have heq := byteLt_conn hbc hbcs
        rw [heq] at hca
        rw [hca] at hab
        simp at hab
      · have hba := byteLt_trans hbcs hca
        rw [hba] at hab
        simp at hab

/-- The stable sort of the shard slice performed in place by
`processExactKeyRange` via `sort.SliceStable(allShards, KeyRangeLess)`. -/
def sortShards (l : List ShardReference) : List ShardReference :=
  List.insertionSort shardLE l

theorem sortShards_idem (l : List ShardReference) :
    sortShards (sortShards l) = sortShards l :=
  (List.sorted_insertionSort shardLE l).insertionSort_eq

/-- The `InvalidArgument` error produced by `processExactKeyRange` when the
key range does not align with shard boundaries. -/
def exactKeyRangeError (kr : KeyRange) : VtError :=
  ⟨.invalidArgument, "keyrange " ++ KeyRangeString kr ++ " does not exactly match shards"⟩

/-- The second loop of `processExactKeyRange`: starting at the first shard
whose start matches, emit shards while they intersect the key range, and
stop successfully on a shard whose end boundary matches. Returns the shard
names passed to `addShard` and the error, if any. -/
def exactWalk (kr : KeyRange) : List ShardReference → List String × Option VtError
  | [] => ([], some (exactKeyRangeError kr))
  | sh :: rest =>
    if ! KeyRangeIntersect kr sh.keyRange then ([], some (exactKeyRangeError kr))
    else if KeyRangeEndEqual kr sh.keyRange then ([sh.name], none)
    else
      let out := exactWalk kr rest
      (sh.name :: out.1, out.2)

/-- The suffix of the sorted shard list that the second loop of
`processExactKeyRange` walks: everything from the first shard whose start
boundary equals the key range's start. -/
def exactTail (allShards : List ShardReference) (kr : KeyRange) : List ShardReference :=
  (sortShards allShards).dropWhile (fun sh => ! KeyRangeStartEqual kr sh.keyRange)

/-- `processExactKeyRange` from `go/vt/key/destination.go`: stably sorts the
caller's shard slice in place by key range, skips to the shard whose start
boundary equals the key range's start, and walks from there. Returns the
emitted shard names with the error, paired with the final state of the
caller's slice. -/
def processExactKeyRange (allShards : List ShardReference) (kr : KeyRange) :
    (List String × Option VtError) × List ShardReference :=
  (exactWalk kr (exactTail allShards kr), sortShards allShards)

/-- `processKeyRange` from `go/vt/key/destination.go`: emit every shard whose
range intersects the key range. -/
def processKeyRange (allShards : List ShardReference) (kr : KeyRange) : List String :=
  (allShards.filter (fun sh => KeyRangeIntersect kr sh.keyRange)).map ShardReference.name

/-- The closed sum of `Destination` implementations of `go/vt/key`. -/
inductive Destination where
  | shard (s : String)
  | shards (l : List String)
  | exactKeyRange (kr : KeyRange)
  | exactKeyRanges (krs : List KeyRange)
  | keyRange (kr : KeyRange)
  | keyRanges (krs : List KeyRange)
  | keyspaceID (id : List Nat)
  | keyspaceIDs (ids : List (List Nat))
  | anyShard
  | allShards
  | destNone
  deriving DecidableEq, Repr

/-- The observable outcome of a `Resolve` call: the shard names emitted via
the `addShard` callback, the returned error, and the final state of the
caller-supplied `allShards` slice (which Go passes by reference). -/
structure ResolveOut where
  emitted : List String
  err : Option VtError
  shards : List ShardReference
  deriving DecidableEq, Repr

/-- `DestinationExactKeyRanges.Resolve`: processes each key range in turn
against the (re-)sorted slice, stopping at the first error. -/
def resolveExactKeyRanges : List KeyRange → List ShardReference → ResolveOut
  | [], allShards => ⟨[], none, allShards⟩
  | kr :: rest, allShards =>
    match (processExactKeyRange allShards kr).1 with
    | (names, some err) => ⟨names, some err, (processExactKeyRange allShards kr).2⟩
    | (names, none) =>
      let out := resolveExactKeyRanges rest (processExactKeyRange allShards kr).2
      ⟨names ++ out.emitted, out.err, out.shards⟩

/-- `DestinationKeyspaceIDs.Resolve`: resolve each keyspace id in turn,
stopping at the first error. -/
def resolveKeyspaceIDs : List (List Nat) → List ShardReference → List String × Option VtError
  | [], _ => ([], none)
  | id :: rest, allShards =>
    match GetShardForKeyspaceID allShards id with
    | .error e => ([], some e)
    | .ok n =>
      let out := resolveKeyspaceIDs rest allShards
      (n :: out.1, out.2)

/-- `Resolve` for each `Destination` implementation of `go/vt/key`, with the
`AnyShardPicker` supplied as the function `pick`. -/
def Destination.Resolve (pick : Nat → Nat) (d : Destination)
    (allShards : List ShardReference) : ResolveOut :=
  match d with
  | .shard s => ⟨[s], none, allShards⟩
  | .shards l => ⟨l, none, allShards⟩
  | .exactKeyRange kr =>
    ⟨(processExactKeyRange allShards kr).1.1, (processExactKeyRange allShards kr).1.2,
      (processExactKeyRange allShards kr).2⟩
  | .exactKeyRanges krs => resolveExactKeyRanges krs allShards
  | .keyRange kr => ⟨processKeyRange allShards kr, none, allShards⟩
  | .keyRanges krs => ⟨(krs.map (processKeyRange allShards)).flatten, none, allShards⟩
  | .keyspaceID id =>
    match GetShardForKeyspaceID allShards id with
    | .ok n => ⟨[n], none, allShards⟩
    | .error e => ⟨[], some e, allShards⟩
  | .keyspaceIDs ids =>
    ⟨(resolveKeyspaceIDs ids allShards).1, (resolveKeyspaceIDs ids allShards).2, allShards⟩
  | .anyShard =>
    if allShards.isEmpty then ⟨[], some ⟨.unavailable, "no shard in keyspace"⟩, allShards⟩
    else ⟨[(allShards.getD (pick allShards.length) ⟨"", ⟨[], []⟩⟩).name], none, allShards⟩
  | .allShards => ⟨allShards.map ShardReference.name, none, allShards⟩
  | .destNone => ⟨[], none, allShards⟩

/-- The destinations whose `Resolve` sorts the caller's slice: the exact
key-range destinations, except that `DestinationExactKeyRanges` with an
empty list of ranges never reaches `processExactKeyRange`. -/
def destSortsShards : Destination → Bool
  | .exactKeyRange _ => true
  | .exactKeyRanges (_ :: _) => true
  | _ => false

theorem resolveExactKeyRanges_shards_of_sorted :
    ∀ (krs : List KeyRange) (l : List ShardReference), sortShards l = l →
      (resolveExactKeyRanges krs l).shards = l := by
  intro krs
  induction krs with
  | nil => intro l _; rfl
  | cons kr rest ih =>
    intro l hl
    rcases hw : (processExactKeyRange l kr).1 with ⟨names, e⟩
    have h2 : (processExactKeyRange l kr).2 = l := hl
    cases e with
    | some err => simp [resolveExactKeyRanges, hw, h2]
    | none => simp [resolveExactKeyRanges, hw, h2, ih l hl]

/-- A placeholder shard used only to state list-indexing facts. -/
def dummyShard : ShardReference :=
  ⟨"", ⟨[], []⟩⟩

theorem exactWalk_err_value (kr : KeyRange) :
    ∀ (l : List ShardReference) (names : List String) (e : VtError),
      exactWalk kr l = (names, some e) → e = exactKeyRangeError kr := by
  intro l
  induction l with
  | nil =>
    intro names e h
    simp only [exactWalk, Prod.mk.injEq] at h
    exact (Option.some.inj h.2).symm
  | cons sh rest ih =>
    intro names e h
    by_cases hint : KeyRangeIntersect kr sh.keyRange = true
    · by_cases hend : KeyRangeEndEqual kr sh.keyRange = true
      · simp only [exactWalk, hint, Bool.not_true, Bool.false_eq_true, if_false,
          hend, if_true, Prod.mk.injEq] at h
        exact absurd h.2 (by simp)
      · rcases hw : exactWalk kr rest with ⟨names2, e2⟩
        have hu : exactWalk kr (sh :: rest) = (sh.name :: names2, e2) := by
          simp [exactWalk, hint, hend, hw]
        rw [hu] at h
        obtain ⟨-, h2⟩ := Prod.mk.injEq .. ▸ h
        cases e2 with
        | none => exact absurd h2 (by simp)
        | some e3 => exact (Option.some.inj h2) ▸ ih names2 e3 hw
    · have hu : exactWalk kr (sh :: rest) = ([], some (exactKeyRangeError kr)) := by
        simp [exactWalk, hint]
      rw [hu] at h
      obtain ⟨-, h2⟩ := Prod.mk.injEq .. ▸ h
      exact (Option.some.inj h2).symm

theorem exactWalk_ok_shape (kr : KeyRange) :
    ∀ (l : List ShardReference) (names : List String),
      exactWalk kr l = (names, none) →
      ∃ k, 0 < k ∧ k ≤ l.length ∧
        names = (l.take k).map ShardReference.name ∧
        (∀ sh ∈ l.take k, KeyRangeIntersect kr sh.keyRange = true) ∧
        (∀ sh ∈ l.take (k - 1), KeyRangeEndEqual kr sh.keyRange = false) ∧
        KeyRangeEndEqual kr ((l.getD (k - 1) dummyShard).keyRange) = true := by
  intro l
  induction l with
  | nil => intro names h; simp [exactWalk] at h
  | cons sh rest ih =>
    intro names h
    by_cases hint : KeyRangeIntersect kr sh.keyRange = true
    · by_cases hend : KeyRangeEndEqual kr sh.keyRange = true
      · have hu : exactWalk kr (sh :: rest) = ([sh.name], none) := by
          simp [exactWalk, hint, hend]
        rw [hu] at h
        obtain ⟨h1, -⟩ := Prod.mk.injEq .. ▸ h
        refine ⟨1, Nat.one_pos, by simp, by simp [← h1], ?_, by simp, by simpa using hend⟩
        intro s hs
        simp at hs
        exact hs ▸ hint
      · rcases hw : exactWalk kr rest with ⟨names2, e2⟩
        have hu : exactWalk kr (sh :: rest) = (sh.name :: names2, e2) := by
          simp [exactWalk, hint, hend, hw]
        rw [hu] at h
        obtain ⟨h1, h2⟩ := Prod.mk.injEq .. ▸ h
        cases e2 with
        | some e3 => exact absurd h2 (by simp)
        | none =>
          obtain ⟨k, hk0, hklen, hnm, hin, hne, hlast⟩ := ih names2 hw
          obtain ⟨k2, rfl⟩ : ∃ k2, k = k2 + 1 :=
            ⟨k - 1, (Nat.succ_pred_eq_of_pos hk0).symm⟩
          refine ⟨k2 + 2, by omega, by simpa using hklen, ?_, ?_, ?_, ?_⟩
          · rw [← h1, List.take_succ_cons, List.map_cons, hnm]
          · intro s hs
            rw [List.take_succ_cons] at hs
            rcases List.mem_cons.mp hs with rfl | hs2
            · exact hint
            · exact hin s hs2
          · intro s hs
            rw [show k2 + 2 - 1 = k2 + 1 from rfl, List.take_succ_cons] at hs
            rcases List.mem_cons.mp hs with rfl | hs2
            · simpa using hend
            · exact hne s (by simpa using hs2)
          · rw [show k2 + 2 - 1 = k2 + 1 from rfl, List.getD_cons_succ]
            simpa using hlast
    · have hu : exactWalk kr (sh :: rest) = ([], some (exactKeyRangeError kr)) := by
        simp [exactWalk, hint]
      rw [hu] at h
      obtain ⟨-, h2⟩ := Prod.mk.injEq .. ▸ h
      exact absurd h2.symm (by simp)

theorem dropWhile_head_false {α : Type} (p : α → Bool) :
    ∀ (l : List α) (x : α) (rest : List α), l.dropWhile p = x :: rest → p x = false := by
  intro l
  induction l with
  | nil => intro x rest h; simp [List.dropWhile] at h
  | cons a as ih =>
    intro x rest h
    rw [List.dropWhile_cons] at h
    by_cases hp : p a = true
    · rw [if_pos hp] at h
      exact ih x rest h
    · rw [if_neg hp] at h
      obtain ⟨h1, -⟩ := List.cons.inj h
      rw [← h1]
      simpa using hp

/-- Claim C2: `DestinationExactKeyRange.Resolve` sorts the shards by key
range, walks from the first shard whose start boundary equals the range's
start, emits consecutive intersecting shards, stops successfully exactly on a
shard whose end boundary equals the range's end, and in every other case
returns the `InvalidArgument` error whose message contains
"does not exactly match shards". -/
theorem destinationExactKeyRange_resolve_characterization
    (pick : Nat → Nat) (allShards : List ShardReference) (kr : KeyRange) :
    (Destination.Resolve pick (.exactKeyRange kr) allShards).shards = sortShards allShards ∧
    ((Destination.Resolve pick (.exactKeyRange kr) allShards).err = none →
      ∃ k, 0 < k ∧ k ≤ (exactTail allShards kr).length ∧
        (Destination.Resolve pick (.exactKeyRange kr) allShards).emitted =
          ((exactTail allShards kr).take k).map ShardReference.name ∧
        KeyRangeStartEqual kr ((exactTail allShards kr).getD 0 dummyShard).keyRange = true ∧
        (∀ sh ∈ (exactTail allShards kr).take k, KeyRangeIntersect kr sh.keyRange = true) ∧
        (∀ sh ∈ (exactTail allShards kr).take (k - 1),
          KeyRangeEndEqual kr sh.keyRange = false) ∧
        KeyRangeEndEqual kr
          ((exactTail allShards kr).getD (k - 1) dummyShard).keyRange = true) ∧
    (∀ e, (Destination.Resolve pick (.exactKeyRange kr) allShards).err = some e →
      e = exactKeyRangeError kr) ∧
    (exactTail allShards kr = [] →
      (Destination.Resolve pick (.exactKeyRange kr) allShards).err =
        some (exactKeyRangeError kr)) ∧
    (exactKeyRangeError kr).code = ErrCode.invalidArgument ∧
    (exactKeyRangeError kr).msg =
      "keyrange " ++ KeyRangeString kr ++ " does not exactly match shards" := by
  refine ⟨rfl, ?_, ?_, ?_, rfl, rfl⟩
  · intro hnone
    rcases hw : exactWalk kr (exactTail allShards kr) with ⟨names, e⟩
    have h2 : (exactWalk kr (exactTail allShards kr)).2 = none := hnone
    rw [hw] at h2
    subst h2
    obtain ⟨k, hk0, hklen, hnm, hin, hne, hlast⟩ := exactWalk_ok_shape kr _ names hw
    have hemit : (Destination.Resolve pick (.exactKeyRange kr) allShards).emitted = names := by
      have : (Destination.Resolve pick (.exactKeyRange kr) allShards).emitted =
          (exactWalk kr (exactTail allShards kr)).1 := rfl
      rw [this, hw]
    refine ⟨k, hk0, hklen, by rw [hemit, hnm], ?_, hin, hne, hlast⟩
    rcases hx : exactTail allShards kr with _ | ⟨x, r⟩
    · rw [hx] at hklen
      simp at hklen
      omega
    · have hx2 : List.dropWhile (fun sh => ! KeyRangeStartEqual kr sh.keyRange)
          (sortShards allShards) = x :: r := hx
      have hhead := dropWhile_head_false
        (fun sh => ! KeyRangeStartEqual kr sh.keyRange) (sortShards allShards) x r hx2
      simpa using hhead
  · intro e hsome
    rcases hw : exactWalk kr (exactTail allShards kr) with ⟨names, e2⟩
    have h2 : (exactWalk kr (exactTail allShards kr)).2 = some e := hsome
    rw [hw] at h2
    cases e2 with
    | none => exact absurd h2 (by simp)
    | some e3 => exact (Option.some.inj h2) ▸ exactWalk_err_value kr _ names e3 hw
  · intro h0
    have hres : (Destination.Resolve pick (.exactKeyRange kr) allShards).err =
        (exactWalk kr (exactTail allShards kr)).2 := rfl
    rw [hres, h0]
    rfl

/-- Claim C9 (amended): `Resolve` leaves the caller-supplied `allShards`
slice untouched for every destination except `DestinationExactKeyRange` and
`DestinationExactKeyRanges` with at least one key range, which stably sort
the slice in place by key range (so the caller's order may change); a
`DestinationExactKeyRanges` with an empty range list never reaches the sort.
The final conjunct shows a concrete slice the sort really reorders. -/
theorem resolve_sorts_slice_only_for_exact_destinations (pick : Nat → Nat)
    (d : Destination) (allShards : List ShardReference) :
    ((Destination.Resolve pick d allShards).shards =
      if destSortsShards d = true then sortShards allShards else allShards) ∧
    sortShards [⟨"b", ⟨[0x80], []⟩⟩, ⟨"a", ⟨[], [0x80]⟩⟩] ≠
      [⟨"b", ⟨[0x80], []⟩⟩, ⟨"a", ⟨[], [0x80]⟩⟩] := by
  constructor
  · cases d with
    | shard s => rfl
    | shards l => rfl
    | exactKeyRange kr => rfl
    | exactKeyRanges krs =>
      cases krs with
      | nil => rfl
      | cons kr rest =>
        show (resolveExactKeyRanges (kr :: rest) allShards).shards = sortShards allShards
        rcases hw : (processExactKeyRange allShards kr).1 with ⟨names, e⟩
        cases e with
        | some err =>
          simp only [resolveExactKeyRanges, hw]
          rfl
        | none =>
          simp only [resolveExactKeyRanges, hw]
          exact resolveExactKeyRanges_shards_of_sorted rest _ (sortShards_idem allShards)
    | keyRange kr => rfl
    | keyRanges krs => rfl
    | keyspaceID id =>
      cases hg : GetShardForKeyspaceID allShards id with
      | ok n => simp [Destination.Resolve, destSortsShards, hg]
      | error e => simp [Destination.Resolve, destSortsShards, hg]
    | keyspaceIDs ids => rfl
    | anyShard =>
      by_cases he : allShards.isEmpty = true <;>
        simp [Destination.Resolve, destSortsShards, he]
    | allShards => rfl
    | destNone => rfl
  · decide

/-- Counterexample to claim C9 as stated: `DestinationExactKeyRanges` with an
empty key-range list returns without sorting, so an unsorted caller slice
stays unsorted even though the claim says this destination sorts it. -/
theorem destinationExactKeyRanges_empty_list_does_not_sort :
    (Destination.Resolve (fun _ => 0) (.exactKeyRanges [])
        [⟨"b", ⟨[0x80], []⟩⟩, ⟨"a", ⟨[], [0x80]⟩⟩]).shards =
      [⟨"b", ⟨[0x80], []⟩⟩, ⟨"a", ⟨[], [0x80]⟩⟩] ∧
    sortShards [⟨"b", ⟨[0x80], []⟩⟩, ⟨"a", ⟨[], [0x80]⟩⟩] ≠
      [⟨"b", ⟨[0x80], []⟩⟩, ⟨"a", ⟨[], [0x80]⟩⟩] := by
  exact ⟨rfl, by decide⟩

/-- A prepared-transaction connection (`StatefulConnection` is opaque to the
pool: only its identity matters here). -/
structure StatefulConnection where
  id : Nat
  deriving DecidableEq, Repr

/-- `errPrepCommitting` from `go/vt/vttablet/tabletserver/tx_prep_pool.go`. -/
def errPrepCommitting : VtError :=
  ⟨.vt09025, "locked for committing"⟩

/-- `errPrepFailed` from `go/vt/vttablet/tabletserver/tx_prep_pool.go`. -/
def errPrepFailed : VtError :=
  ⟨.vt09025, "failed to commit"⟩

/-- Go map assignment `m[k] = v` on an association list. -/
def setKey {α : Type} (k : String) (v : α) : List (String × α) → List (String × α)
  | [] => [(k, v)]
  | (k2, v2) :: rest => if k2 == k then (k2, v) :: rest else (k2, v2) :: setKey k v rest

/-- Go map `delete(m, k)` on an association list. -/
def eraseKey {α : Type} (k : String) : List (String × α) → List (String × α)
  | [] => []
  | (k2, v2) :: rest => if k2 == k then eraseKey k rest else (k2, v2) :: eraseKey k rest

/-- `TxPreparedPool` state: the `conns` map of prepared connections, the
`reserved` map of dtids locked for committing or marked failed, the open
flag, and the capacity. -/
structure TxPreparedPool where
  conns : List (String × StatefulConnection)
  reserved : List (String × VtError)
  open_ : Bool
  capacity : Nat
  deriving DecidableEq, Repr

/-- `NewTxPreparedPool`: empty maps, closed, negative capacity clamped to 0. -/
def NewTxPreparedPool (capacity : Int) : TxPreparedPool :=
  ⟨[], [], false, capacity.toNat⟩

/-- `TxPreparedPool.Put`: rejects a closed pool, a dtid present in either
map, and a full pool; otherwise stores the connection. -/
def TxPreparedPool.Put (pp : TxPreparedPool) (c : StatefulConnection) (dtid : String) :
    Except VtError TxPreparedPool :=
  if !pp.open_ then .error ⟨.vt09025, "pool is shutdown"⟩
  else if (pp.reserved.lookup dtid).isSome then
    .error ⟨.vt09025, "duplicate DTID in Prepare: " ++ dtid⟩
  else if (pp.conns.lookup dtid).isSome then
    .error ⟨.vt09025, "duplicate DTID in Prepare: " ++ dtid⟩
  else if pp.conns.length ≥ pp.capacity then
    .error ⟨.resourceExhausted, "prepared transactions exceeded limit: " ++ toString pp.capacity⟩
  else .ok { pp with conns := setKey dtid c pp.conns }

/-- `TxPreparedPool.FetchForRollback`: a reserved dtid only loses its
reservation (nil is returned); otherwise the connection, if any, is removed
and returned. -/
def TxPreparedPool.FetchForRollback (pp : TxPreparedPool) (dtid : String) :
    Option StatefulConnection × TxPreparedPool :=
  if (pp.reserved.lookup dtid).isSome then
    (none, { pp with reserved := eraseKey dtid pp.reserved })
  else
    (pp.conns.lookup dtid, { pp with conns := eraseKey dtid pp.conns })

/-- `TxPreparedPool.FetchForCommit`: fails on a closed pool; a reserved dtid
yields its stored error; otherwise the connection moves into the reserved
map as `errPrepCommitting` (a missing dtid yields nil with no error). -/
def TxPreparedPool.FetchForCommit (pp : TxPreparedPool) (dtid : String) :
    Except VtError (Option StatefulConnection) × TxPreparedPool :=
  if !pp.open_ then (.error ⟨.vt09025, "pool is shutdown"⟩, pp)
  else
    match pp.reserved.lookup dtid with
    | some err => (.error err, pp)
    | none =>
      match pp.conns.lookup dtid with
      | some c =>
        (.ok (some c),
          { pp with conns := eraseKey dtid pp.conns,
                    reserved := setKey dtid errPrepCommitting pp.reserved })
      | none => (.ok none, pp)

/-- `TxPreparedPool.SetFailed`: marks the dtid failed, creating the
reservation when none exists. -/
def TxPreparedPool.SetFailed (pp : TxPreparedPool) (dtid : String) : TxPreparedPool :=
  { pp with reserved := setKey dtid errPrepFailed pp.reserved }

/-- `TxPreparedPool.Forget`: drops the dtid from the reserved map. -/
def TxPreparedPool.Forget (pp : TxPreparedPool) (dtid : String) : TxPreparedPool :=
  { pp with reserved := eraseKey dtid pp.reserved }

/-- `TxPreparedPool.Open` marks the pool open for use. -/
def TxPreparedPool.Open (pp : TxPreparedPool) : TxPreparedPool :=
  { pp with open_ := true }

/-- `TxPreparedPool.Close` marks the pool closed. -/
def TxPreparedPool.Close (pp : TxPreparedPool) : TxPreparedPool :=
  { pp with open_ := false }

theorem lookup_setKey_self {α : Type} (k : String) (v : α) :
    ∀ l : List (String × α), (setKey k v l).lookup k = some v := by
  intro l
  induction l with
  | nil => simp [setKey, List.lookup]
  | cons p rest ih =>
    rcases p with ⟨k2, v2⟩
    by_cases h : k2 = k
    · subst h
      simp [setKey, List.lookup]
    · have hbeq : (k == k2) = false := beq_eq_false_iff_ne.mpr fun he => h he.symm
      have hbeq2 : (k2 == k) = false := beq_eq_false_iff_ne.mpr h
      simp [setKey, List.lookup, hbeq, hbeq2, ih]

theorem lookup_eraseKey_self {α : Type} (k : String) :
    ∀ l : List (String × α), (eraseKey k l).lookup k = none := by
  intro l
  induction l with
  | nil => rfl
  | cons p rest ih =>
    rcases p with ⟨k2, v2⟩
    by_cases h : k2 = k
    · subst h
      simpa [eraseKey] using ih
    · have hbeq : (k == k2) = false := beq_eq_false_iff_ne.mpr fun he => h he.symm
      have hbeq2 : (k2 == k) = false := beq_eq_false_iff_ne.mpr h
      simp [eraseKey, List.lookup, hbeq, hbeq2, ih]

theorem eraseKey_of_lookup_none {α : Type} (k : String) :
    ∀ l : List (String × α), l.lookup k = none → eraseKey k l = l := by
  intro l
  induction l with
  | nil => intro _; rfl
  | cons p rest ih =>
    rcases p with ⟨k2, v2⟩
    intro h
    by_cases he : k = k2
    · subst he
      simp [List.lookup] at h
    · have hbeq : (k == k2) = false := beq_eq_false_iff_ne.mpr he
      have hbeq2 : (k2 == k) = false := beq_eq_false_iff_ne.mpr fun hx => he hx.symm
      simp only [List.lookup, hbeq] at h
      simp only [eraseKey, hbeq2]
      rw [if_neg (by simp), ih h]

/-- Claim C4 (amended): while the pool is open, after `SetFailed(X)` every
`FetchForCommit(X)` returns no connection and the stored failed-to-commit
error (a closed pool reports "pool is shutdown" instead); and after a
`FetchForCommit(X)` that successfully returned a prepared connection, a
repeated `FetchForCommit(X)` returns no connection and the
locked-for-committing error. -/
theorem fetchForCommit_failed_and_committing_states
    (pp : TxPreparedPool) (dtid : String) :
    (pp.open_ = true →
      ((pp.SetFailed dtid).FetchForCommit dtid).1 = .error errPrepFailed ∧
      ((pp.SetFailed dtid).FetchForCommit dtid).2 = pp.SetFailed dtid) ∧
    (∀ (c : StatefulConnection) (pp2 : TxPreparedPool),
      pp.FetchForCommit dtid = (.ok (some c), pp2) →
      (pp2.FetchForCommit dtid).1 = .error errPrepCommitting ∧
      (pp2.FetchForCommit dtid).2 = pp2) := by
  constructor
  · intro hopen
    constructor <;>
      simp [TxPreparedPool.FetchForCommit, TxPreparedPool.SetFailed, hopen,
        lookup_setKey_self]
  · intro c pp2 h
    by_cases hopen : pp.open_ = true
    · rcases hres : pp.reserved.lookup dtid with _ | err
      · rcases hconn : pp.conns.lookup dtid with _ | c2
        · have hu : pp.FetchForCommit dtid = (.ok none, pp) := by
            simp [TxPreparedPool.FetchForCommit, hopen, hres, hconn]
          rw [hu] at h
          obtain ⟨h1, -⟩ := Prod.mk.injEq .. ▸ h
          exact absurd h1 (by simp)
        · have hu : pp.FetchForCommit dtid = (.ok (some c2),
              { pp with conns := eraseKey dtid pp.conns,
                        reserved := setKey dtid errPrepCommitting pp.reserved }) := by
            simp [TxPreparedPool.FetchForCommit, hopen, hres, hconn]
          rw [hu] at h
          obtain ⟨-, h2⟩ := Prod.mk.injEq .. ▸ h
          subst h2
          constructor <;>
            simp [TxPreparedPool.FetchForCommit, hopen, lookup_setKey_self]
      · have hu : pp.FetchForCommit dtid = (.error err, pp) := by
          simp [TxPreparedPool.FetchForCommit, hopen, hres]
        rw [hu] at h
        obtain ⟨h1, -⟩ := Prod.mk.injEq .. ▸ h
        exact absurd h1 (by simp)
    · have hop2 : pp.open_ = false := by simpa using hopen
      have hu : pp.FetchForCommit dtid = (.error ⟨.vt09025, "pool is shutdown"⟩, pp) := by
        simp [TxPreparedPool.FetchForCommit, hop2]
      rw [hu] at h
      obtain ⟨h1, -⟩ := Prod.mk.injEq .. ▸ h
      exact absurd h1 (by simp)

/-- Counterexample to claim C4 as stated: on a closed pool, `FetchForCommit`
after `SetFailed` returns the "pool is shutdown" error, not the stored
failed-to-commit error. -/
theorem fetchForCommit_after_setFailed_closed_pool :
    ((TxPreparedPool.SetFailed ⟨[], [], false, 1⟩ "x").FetchForCommit "x").1 =
      .error ⟨.vt09025, "pool is shutdown"⟩ ∧
    ((TxPreparedPool.SetFailed ⟨[], [], false, 1⟩ "x").FetchForCommit "x").1 ≠
      .error errPrepFailed := by
  refine ⟨rfl, fun h => ?_⟩
  exact absurd (Except.error.inj h) (by decide)

/-- Claim C5 (amended): for every dtid whose reservation is Failed or
Committing, `FetchForRollback` removes the reservation and returns nil; when
the dtid holds no connection in `conns` (always so in the prepared-commit
flow, where `FetchForCommit` already moved the connection out), a second
`FetchForRollback` also returns nil and leaves the pool unchanged. -/
theorem fetchForRollback_reserved_idempotent
    (pp : TxPreparedPool) (dtid : String)
    (hres : pp.reserved.lookup dtid = some errPrepFailed ∨
      pp.reserved.lookup dtid = some errPrepCommitting) :
    (pp.FetchForRollback dtid).1 = none ∧
    (pp.FetchForRollback dtid).2 = { pp with reserved := eraseKey dtid pp.reserved } ∧
    (pp.FetchForRollback dtid).2.reserved.lookup dtid = none ∧
    (pp.conns.lookup dtid = none →
      ((pp.FetchForRollback dtid).2.FetchForRollback dtid).1 = none ∧
      ((pp.FetchForRollback dtid).2.FetchForRollback dtid).2 =
        (pp.FetchForRollback dtid).2) := by
  have hsome : (pp.reserved.lookup dtid).isSome = true := by
    rcases hres with h | h <;> simp [h]
  have hu : pp.FetchForRollback dtid =
      (none, { pp with reserved := eraseKey dtid pp.reserved }) := by
    simp [TxPreparedPool.FetchForRollback, hsome]
  refine ⟨by rw [hu], by rw [hu], ?_, ?_⟩
  · rw [hu]
    exact lookup_eraseKey_self dtid pp.reserved
  · intro hconn
    rw [hu]
    have hu2 : ({ pp with reserved := eraseKey dtid pp.reserved } :
        TxPreparedPool).FetchForRollback dtid =
        (none, { pp with reserved := eraseKey dtid pp.reserved }) := by
      simp only [TxPreparedPool.FetchForRollback, lookup_eraseKey_self, Option.isSome_none,
        Bool.false_eq_true, if_false]
      rw [hconn, eraseKey_of_lookup_none dtid pp.conns hconn]
    rw [hu2]
    exact ⟨rfl, rfl⟩

/-- Witness for C5: a pool whose only state is a Failed reservation for
"x"; the first rollback removes the reservation and returns nil, and the
second rollback is a nil-returning no-op. -/
theorem fetchForRollback_reserved_idempotent_witness :
    ((⟨[], [("x", errPrepFailed)], true, 1⟩ : TxPreparedPool).FetchForRollback "x").1 =
      none ∧
    ((⟨[], [("x", errPrepFailed)], true, 1⟩ : TxPreparedPool).FetchForRollback "x").2 =
      (⟨[], [], true, 1⟩ : TxPreparedPool) ∧
    (((⟨[], [("x", errPrepFailed)], true, 1⟩ :
        TxPreparedPool).FetchForRollback "x").2.reserved.lookup "x" = none) ∧
    ((((⟨[], [("x", errPrepFailed)], true, 1⟩ :
        TxPreparedPool).FetchForRollback "x").2.FetchForRollback "x").1 = none ∧
      (((⟨[], [("x", errPrepFailed)], true, 1⟩ :
          TxPreparedPool).FetchForRollback "x").2.FetchForRollback "x").2 =
        ((⟨[], [("x", errPrepFailed)], true, 1⟩ :
          TxPreparedPool).FetchForRollback "x").2) := by
  have h := fetchForRollback_reserved_idempotent
    ⟨[], [("x", errPrepFailed)], true, 1⟩ "x" (Or.inl rfl)
  exact ⟨h.1, h.2.1, h.2.2.1, h.2.2.2 rfl⟩

/-- Counterexample to claim C5 as stated: a dtid can be reserved as Failed
while still holding a connection (Put then SetFailed); the first rollback
removes only the reservation, and the second rollback returns the
connection, not nil. -/
theorem fetchForRollback_second_call_returns_connection :
    TxPreparedPool.Put ⟨[], [], true, 1⟩ ⟨1⟩ "x" = .ok ⟨[("x", ⟨1⟩)], [], true, 1⟩ ∧
    TxPreparedPool.SetFailed ⟨[("x", ⟨1⟩)], [], true, 1⟩ "x" =
      ⟨[("x", ⟨1⟩)], [("x", errPrepFailed)], true, 1⟩ ∧
    ((⟨[("x", ⟨1⟩)], [("x", errPrepFailed)], true, 1⟩ :
      TxPreparedPool).FetchForRollback "x").1 = none ∧
    ((((⟨[("x", ⟨1⟩)], [("x", errPrepFailed)], true, 1⟩ :
      TxPreparedPool).FetchForRollback "x").2).FetchForRollback "x").1 = some ⟨1⟩ ∧
    some (⟨1⟩ : StatefulConnection) ≠ none := by
  exact ⟨rfl, rfl, rfl, rfl, by decide⟩

/-- Claim C10 (amended): `SetFailed(dtid)` creates a Failed reservation even
for a dtid that was never prepared; while the pool is open, every
`FetchForCommit(dtid)` then returns the failed-to-commit error and every
`Put(conn, dtid)` returns a duplicate-DTID error (a closed pool reports
"pool is shutdown" for both), until `Forget(dtid)` or
`FetchForRollback(dtid)` removes the reservation. -/
theorem setFailed_reserves_unprepared_dtid
    (pp : TxPreparedPool) (dtid : String) (c : StatefulConnection) :
    (pp.SetFailed dtid).reserved.lookup dtid = some errPrepFailed ∧
    (pp.open_ = true →
      ((pp.SetFailed dtid).FetchForCommit dtid).1 = .error errPrepFailed) ∧
    (pp.open_ = true →
      (pp.SetFailed dtid).Put c dtid =
        .error ⟨.vt09025, "duplicate DTID in Prepare: " ++ dtid⟩) ∧
    ((pp.SetFailed dtid).Forget dtid).reserved.lookup dtid = none ∧
    ((pp.SetFailed dtid).FetchForRollback dtid).2.reserved.lookup dtid = none := by
  refine ⟨lookup_setKey_self dtid errPrepFailed pp.reserved, ?_, ?_, ?_, ?_⟩
  · intro hopen
    simp [TxPreparedPool.FetchForCommit, TxPreparedPool.SetFailed, hopen,
      lookup_setKey_self]
  · intro hopen
    simp [TxPreparedPool.Put, TxPreparedPool.SetFailed, hopen, lookup_setKey_self]
  · exact lookup_eraseKey_self dtid _
  · have hsome : ((pp.SetFailed dtid).reserved.lookup dtid).isSome = true := by
      simp [TxPreparedPool.SetFailed, lookup_setKey_self]
    simp only [TxPreparedPool.FetchForRollback, hsome, if_true]
    exact lookup_eraseKey_self dtid _

/-- Counterexample to claim C10 as stated: on a closed pool, `Put` after
`SetFailed` returns the "pool is shutdown" error, not a duplicate-DTID
error. -/
theorem put_after_setFailed_closed_pool :
    (TxPreparedPool.SetFailed ⟨[], [], false, 1⟩ "x").Put ⟨1⟩ "x" =
      .error ⟨.vt09025, "pool is shutdown"⟩ ∧
    (TxPreparedPool.SetFailed ⟨[], [], false, 1⟩ "x").Put ⟨1⟩ "x" ≠
      .error ⟨.vt09025, "duplicate DTID in Prepare: " ++ "x"⟩ := by
  refine ⟨rfl, fun h => ?_⟩
  exact absurd (Except.error.inj h) (by decide)

mutual
/-- The fragment of the `sqlparser` expression AST that
`queryprojection.go` inspects: column names with an optional qualifier,
aggregate function calls (whose `GetArgs()` may be nil, modelled by
`hasArgs`), subqueries, bind-variable arguments, the NULL literal, ordinary
function calls and literals. -/
inductive Expr where
  | colName (name : String) (qualifier : String)
  | aggrFunc (name : String) (hasArgs : Bool) (args : ExprList) (distinct : Bool)
  | subquery (inner : Expr)
  | argument (name : String)
  | nullVal
  | funcCall (name : String) (args : ExprList)
  | literal (val : String)
  deriving DecidableEq, Repr

/-- A list of expressions (argument lists, kept mutual with `Expr`). -/
inductive ExprList where
  | nil
  | cons (e : Expr) (es : ExprList)
  deriving DecidableEq, Repr
end

/-- Length of an argument list (`len(GetArgs())`). -/
def ExprList.length : ExprList → Nat
  | .nil => 0
  | .cons _ es => es.length + 1

mutual
/-- `sqlparser.ContainsAggregation`: some node of the tree is an aggregate
function. -/
def containsAggregation : Expr → Bool
  | .colName _ _ => false
  | .aggrFunc _ _ _ _ => true
  | .subquery inner => containsAggregation inner
  | .argument _ => false
  | .nullVal => false
  | .funcCall _ args => containsAggregationList args
  | .literal _ => false

def containsAggregationList : ExprList → Bool
  | .nil => false
  | .cons e es => containsAggregation e || containsAggregationList es
end

mutual
/-- Some node of the tree is a subquery, or an argument whose name starts
with the `__sq` placeholder prefix. -/
def containsSubqOrSqArg : Expr → Bool
  | .colName _ _ => false
  | .aggrFunc _ _ args _ => containsSubqOrSqArgList args
  | .subquery _ => true
  | .argument nm => nm.startsWith "__sq"
  | .nullVal => false
  | .funcCall _ args => containsSubqOrSqArgList args
  | .literal _ => false

def containsSubqOrSqArgList : ExprList → Bool
  | .nil => false
  | .cons e es => containsSubqOrSqArg e || containsSubqOrSqArgList es
end

mutual
/-- Some aggregate function node lies outside every subquery: the tree has
an aggregate reachable without crossing a `subquery` node. An aggregate
sitting inside a subquery does not count. -/
def containsAggrOutsideSubq : Expr → Bool
  | .colName _ _ => false
  | .aggrFunc _ _ _ _ => true
  | .subquery _ => false
  | .argument _ => false
  | .nullVal => false
  | .funcCall _ args => containsAggrOutsideSubqList args
  | .literal _ => false

def containsAggrOutsideSubqList : ExprList → Bool
  | .nil => false
  | .cons e es => containsAggrOutsideSubq e || containsAggrOutsideSubqList es
end

mutual
/-- Some node of the tree is an aggregate function whose argument list is
non-nil and of length different from one. -/
def containsBadArityAggr : Expr → Bool
  | .colName _ _ => false
  | .aggrFunc _ hasArgs args _ =>
    (hasArgs && args.length != 1) || containsBadArityAggrList args
  | .subquery inner => containsBadArityAggr inner
  | .argument _ => false
  | .nullVal => false
  | .funcCall _ args => containsBadArityAggrList args
  | .literal _ => false

def containsBadArityAggrList : ExprList → Bool
  | .nil => false
  | .cons e es => containsBadArityAggr e || containsBadArityAggrList es
end

mutual
/-- A plain rendering of an expression (`sqlparser.String`). -/
def sqlString : Expr → String
  | .colName nm q => if q = "" then nm else q ++ "." ++ nm
  | .aggrFunc nm _ args d =>
    nm ++ "(" ++ (if d then "distinct " else "") ++ sqlStringList args ++ ")"
  | .subquery inner => "(" ++ sqlString inner ++ ")"
  | .argument nm => ":" ++ nm
  | .nullVal => "null"
  | .funcCall nm args => nm ++ "(" ++ sqlStringList args ++ ")"
  | .literal v => v

def sqlStringList : ExprList → String
  | .nil => ""
  | .cons e .nil => sqlString e
  | .cons e es => sqlString e ++ ", " ++ sqlStringList es
end

mutual
/-- The walk of `checkForInvalidGroupingExpressions` over one GROUP BY
expression: pre-order, aborting with `VT03005` (rendering the whole outer
expression) at the first aggregate node, and with `VT12001` at the first
subquery node or `__sq`-prefixed argument. -/
def walkInvalidGrouping (outer : Expr) : Expr → Option VtError
  | .colName _ _ => none
  | .aggrFunc _ _ _ _ => some ⟨.vt03005, sqlString outer⟩
  | .subquery _ => some ⟨.vt12001, "subqueries in GROUP BY"⟩
  | .argument nm =>
    if nm.startsWith "__sq" then some ⟨.vt12001, "subqueries in GROUP BY"⟩ else none
  | .nullVal => none
  | .funcCall _ args => walkInvalidGroupingList outer args
  | .literal _ => none

def walkInvalidGroupingList (outer : Expr) : ExprList → Option VtError
  | .nil => none
  | .cons e es =>
    match walkInvalidGrouping outer e with
    | some err => some err
    | none => walkInvalidGroupingList outer es
end

/-- `checkForInvalidGroupingExpressions` from `queryprojection.go`. -/
def checkForInvalidGroupingExpressions (expr : Expr) : Except VtError Unit :=
  match walkInvalidGrouping expr expr with
  | some e => .error e
  | none => .ok ()

mutual
/-- The walk of `checkForInvalidAggregations`: pre-order over the whole
tree, aborting with `VT03001` (rendering the offending node) at the first
aggregate whose argument list is non-nil and of length different from one;
well-formed aggregates are entered and their arguments checked too. -/
def walkInvalidAggregations : Expr → Option VtError
  | .colName _ _ => none
  | .aggrFunc nm hasArgs args d =>
    if hasArgs && args.length != 1 then
      some ⟨.vt03001, sqlString (.aggrFunc nm hasArgs args d)⟩
    else walkInvalidAggregationsList args
  | .subquery inner => walkInvalidAggregations inner
  | .argument _ => none
  | .nullVal => none
  | .funcCall _ args => walkInvalidAggregationsList args
  | .literal _ => none

def walkInvalidAggregationsList : ExprList → Option VtError
  | .nil => none
  | .cons e es =>
    match walkInvalidAggregations e with
    | some err => some err
    | none => walkInvalidAggregationsList es
end

/-- `checkForInvalidAggregations` from `queryprojection.go` (applied to the
expression of an aliased select expression). -/
def checkForInvalidAggregations (expr : Expr) : Except VtError Unit :=
  match walkInvalidAggregations expr with
  | some e => .error e
  | none => .ok ()

/-- A select-list entry: an aliased expression (empty alias when absent) or
a star expression. -/
inductive SelCol where
  | aliasedExpr (expr : Expr) (as_ : String)
  | starExpr (table : String)
  deriving DecidableEq, Repr

/-- `SelectExpr` from `queryprojection.go`: a select-list entry with its
aggregation bit. -/
structure SelectExpr where
  Col : SelCol
  Aggr : Bool
  deriving DecidableEq, Repr

/-- `SelectExpr.GetAliasedExpr`: the aliased expression when the entry's
type allows it; a star expression yields the `VT12001` cross-shard error. -/
def SelectExpr.GetAliasedExpr (s : SelectExpr) : Except VtError (Expr × String) :=
  match s.Col with
  | .aliasedExpr e a => .ok (e, a)
  | .starExpr _ => .error ⟨.vt12001, "'*' expression in cross-shard query"⟩

/-- An ORDER BY direction. -/
inductive OrderDirection where
  | asc
  | desc
  deriving DecidableEq, Repr

/-- `sqlparser.Order`: one ORDER BY entry. -/
structure Order where
  expr : Expr
  direction : OrderDirection
  deriving DecidableEq, Repr

/-- `OrderBy` from `queryprojection.go`: the ORDER BY entry together with
its simplified (weight-string) expression. -/
structure OrderBy where
  Inner : Order
  WeightStrExpr : Expr
  deriving DecidableEq, Repr

/-- `GroupBy` from `queryprojection.go`. -/
structure GroupBy where
  Inner : Expr
  WeightStrExpr : Expr
  InnerIndex : Option Nat
  aliasedExpr : Option (Expr × String)
  deriving DecidableEq, Repr

/-- `QueryProjection` from `queryprojection.go`. -/
structure QueryProjection where
  SelectExprs : List SelectExpr
  HasAggr : Bool
  Distinct : Bool
  groupByExprs : List GroupBy
  OrderExprs : List OrderBy
  CanPushDownSorting : Bool
  HasStar : Bool
  AddedColumn : Nat
  deriving DecidableEq, Repr

/-- `sqlparser.IsNull`: the expression is the NULL literal. -/
def IsNull : Expr → Bool
  | .nullVal => true
  | _ => false

/-- The scan of `GetSimplifiedExpr` over the select expressions: for an
unqualified column name, the first aliased select expression whose alias
matches the name, or whose unaliased expression is a column of that name,
supplies the underlying expression. -/
def simplifyWithSelectExprs (ses : List SelectExpr) (e : Expr) : Expr :=
  match e with
  | .colName nm q =>
    if q ≠ "" then e
    else
      match ses.findSome? (fun se =>
        match se.Col with
        | .aliasedExpr ae als =>
          if als ≠ "" then (if nm = als then some ae else none)
          else
            match ae with
            | .colName nm2 _ => if nm2 = nm then some ae else none
            | _ => none
        | .starExpr _ => none) with
      | some found => found
      | none => e
  | _ => e

/-- `QueryProjection.GetSimplifiedExpr` from `queryprojection.go`. -/
def QueryProjection.GetSimplifiedExpr (qp : QueryProjection) (e : Expr) : Expr :=
  simplifyWithSelectExprs qp.SelectExprs e

/-- One iteration of the loop of `QueryProjection.addOrderBy`: a NULL
simplified expression is skipped; otherwise the entry is retained and the
running `canPushDownSorting` flag is cleared when the simplified expression
contains an aggregation. -/
def addOrderByStep (acc : QueryProjection × Bool) (order : Order) :
    QueryProjection × Bool :=
  let weightStrExpr := acc.1.GetSimplifiedExpr order.expr
  if IsNull weightStrExpr then acc
  else
    ({ acc.1 with OrderExprs := acc.1.OrderExprs ++ [⟨order, weightStrExpr⟩] },
      acc.2 && ! containsAggregation weightStrExpr)

/-- `QueryProjection.addOrderBy` from `queryprojection.go`. -/
def QueryProjection.addOrderBy (qp : QueryProjection) (orderBy : List Order) :
    QueryProjection :=
  let acc := orderBy.foldl addOrderByStep (qp, true)
  { acc.1 with CanPushDownSorting := acc.2 }

/-- `QueryProjection.addSelectExpressions` needs the SELECT statement shape. -/
structure Select where
  Distinct : Bool
  SelectExprs : List SelCol
  GroupBy : List Expr
  OrderBy : List Order
  deriving DecidableEq, Repr

/-- `QueryProjection.addSelectExpressions` from `queryprojection.go`. -/
def QueryProjection.addSelectExpressions (qp : QueryProjection) (sel : Select) :
    Except VtError QueryProjection :=
  sel.SelectExprs.foldlM (fun qp selExp =>
    match selExp with
    | SelCol.aliasedExpr e a =>
      match checkForInvalidAggregations e with
      | .error err => .error err
      | .ok _ =>
        pure { qp with
          SelectExprs := qp.SelectExprs ++
            [⟨SelCol.aliasedExpr e a, containsAggregation e⟩],
          HasAggr := qp.HasAggr || containsAggregation e }
    | SelCol.starExpr t =>
      pure { qp with
        SelectExprs := qp.SelectExprs ++ [⟨SelCol.starExpr t, false⟩],
        HasStar := true }) qp

/-- The loop of `FindSelectExprIndexForExpr`. -/
def findSelectExprIdx (expr : Expr) : Nat → List SelectExpr →
    Option Nat × Option (Expr × String)
  | _, [] => (none, none)
  | idx, se :: rest =>
    match se.Col with
    | SelCol.starExpr _ => findSelectExprIdx expr (idx + 1) rest
    | SelCol.aliasedExpr ae als =>
      let aliasMatch :=
        match expr with
        | .colName nm _ => als ≠ "" && nm == als
        | _ => false
      if aliasMatch then (some idx, some (ae, als))
      else if ae == expr then (some idx, some (ae, als))
      else findSelectExprIdx expr (idx + 1) rest

/-- `QueryProjection.FindSelectExprIndexForExpr` from `queryprojection.go`
(semantic expression equality modelled as structural equality). -/
def QueryProjection.FindSelectExprIndexForExpr (qp : QueryProjection) (expr : Expr) :
    Option Nat × Option (Expr × String) :=
  findSelectExprIdx expr 0 qp.SelectExprs

/-- `CreateQPFromSelect` from `queryprojection.go`. -/
def CreateQPFromSelect (sel : Select) : Except VtError QueryProjection := do
  let qp0 : QueryProjection := ⟨[], false, sel.Distinct, [], [], false, false, 0⟩
  let qp1 ← qp0.addSelectExpressions sel
  let qp2 ← sel.GroupBy.foldlM (fun qp group =>
    let fi := qp.FindSelectExprIndexForExpr group
    let weightStrExpr := qp.GetSimplifiedExpr group
    match checkForInvalidGroupingExpressions weightStrExpr with
    | .error e => .error e
    | .ok _ =>
      pure { qp with groupByExprs :=
        qp.groupByExprs ++ [⟨group, weightStrExpr, fi.1, fi.2⟩] }) qp1
  let qp3 := qp2.addOrderBy sel.OrderBy
  pure (if qp3.Distinct && !qp3.HasAggr then { qp3 with groupByExprs := [] } else qp3)

mutual
theorem walkInvalidGrouping_none_iff (outer : Expr) :
    ∀ e : Expr, walkInvalidGrouping outer e = none ↔
      (containsAggregation e = false ∧ containsSubqOrSqArg e = false)
  | .colName nm q => by
    simp [walkInvalidGrouping, containsAggregation, containsSubqOrSqArg]
  | .aggrFunc nm h args d => by
    simp [walkInvalidGrouping, containsAggregation, containsSubqOrSqArg]
  | .subquery i => by
    simp [walkInvalidGrouping, containsSubqOrSqArg]
  | .argument nm => by
    by_cases hs : nm.startsWith "__sq" = true <;>
      simp [walkInvalidGrouping, containsAggregation, containsSubqOrSqArg, hs]
  | .nullVal => by
    simp [walkInvalidGrouping, containsAggregation, containsSubqOrSqArg]
  | .funcCall nm args => by
    simpa [walkInvalidGrouping, containsAggregation, containsSubqOrSqArg] using
      walkInvalidGroupingList_none_iff outer args
  | .literal v => by
    simp [walkInvalidGrouping, containsAggregation, containsSubqOrSqArg]

theorem walkInvalidGroupingList_none_iff (outer : Expr) :
    ∀ es : ExprList, walkInvalidGroupingList outer es = none ↔
      (containsAggregationList es = false ∧ containsSubqOrSqArgList es = false)
  | .nil => by
    simp [walkInvalidGroupingList, containsAggregationList, containsSubqOrSqArgList]
  | .cons e es => by
    have ih1 := walkInvalidGrouping_none_iff outer e
    have ih2 := walkInvalidGroupingList_none_iff outer es
    simp only [walkInvalidGroupingList, containsAggregationList, containsSubqOrSqArgList,
      Bool.or_eq_false_iff]
    cases hw : walkInvalidGrouping outer e with
    | some err =>
      constructor
      · intro h
        exact absurd h (by simp)
      · rintro ⟨⟨ha1, ha2⟩, hb1, hb2⟩
        have : walkInvalidGrouping outer e = none := ih1.mpr ⟨ha1, hb1⟩
        rw [hw] at this
        exact absurd this (by simp)
    | none =>
      obtain ⟨h1, h2⟩ := ih1.mp hw
      rw [ih2]
      constructor
      · rintro ⟨ha, hb⟩
        exact ⟨⟨h1, ha⟩, h2, hb⟩
      · rintro ⟨⟨-, ha⟩, -, hb⟩
        exact ⟨ha, hb⟩
end

mutual
theorem walkInvalidGrouping_aggr_no_subq (outer : Expr) :
    ∀ e : Expr, containsAggregation e = true → containsSubqOrSqArg e = false →
      walkInvalidGrouping outer e = some ⟨.vt03005, sqlString outer⟩
  | .colName nm q => by intro h _; simp [containsAggregation] at h
  | .aggrFunc nm h args d => by intro _ _; rfl
  | .subquery i => by intro _ hs; simp [containsSubqOrSqArg] at hs
  | .argument nm => by intro h _; simp [containsAggregation] at h
  | .nullVal => by intro h _; simp [containsAggregation] at h
  | .funcCall nm args => by
    intro h hs
    simp only [containsAggregation] at h
    simp only [containsSubqOrSqArg] at hs
    exact walkInvalidGroupingList_aggr_no_subq outer args h hs
  | .literal v => by intro h _; simp [containsAggregation] at h

theorem walkInvalidGroupingList_aggr_no_subq (outer : Expr) :
    ∀ es : ExprList, containsAggregationList es = true →
      containsSubqOrSqArgList es = false →
      walkInvalidGroupingList outer es = some ⟨.vt03005, sqlString outer⟩
  | .nil => by intro h _; simp [containsAggregationList] at h
  | .cons e es => by
    intro h hs
    simp only [containsAggregationList, Bool.or_eq_true] at h
    simp only [containsSubqOrSqArgList, Bool.or_eq_false_iff] at hs
    cases hae : containsAggregation e with
    | true =>
      have hsome := walkInvalidGrouping_aggr_no_subq outer e hae hs.1
      simp [walkInvalidGroupingList, hsome]
    | false =>
      have hrest : containsAggregationList es = true := by
        rcases h with h | h
        · rw [hae] at h
          exact absurd h (by simp)
        · exact h
      have hnone : walkInvalidGrouping outer e = none :=
        (walkInvalidGrouping_none_iff outer e).mpr ⟨hae, hs.1⟩
      have hlist := walkInvalidGroupingList_aggr_no_subq outer es hrest hs.2
      simp [walkInvalidGroupingList, hnone, hlist]
end

mutual
theorem no_subq_no_outer_aggr_means_no_aggr :
    ∀ e : Expr, containsSubqOrSqArg e = false → containsAggrOutsideSubq e = false →
      containsAggregation e = false
  | .colName nm q => by intro _ _; rfl
  | .aggrFunc nm h args d => by intro _ ha; simp [containsAggrOutsideSubq] at ha
  | .subquery i => by intro hs _; simp [containsSubqOrSqArg] at hs
  | .argument nm => by intro _ _; rfl
  | .nullVal => by intro _ _; rfl
  | .funcCall nm args => by
    intro hs ha
    simp only [containsSubqOrSqArg] at hs
    simp only [containsAggrOutsideSubq] at ha
    simp only [containsAggregation]
    exact no_subq_no_outer_aggr_means_no_aggrList args hs ha
  | .literal v => by intro _ _; rfl

theorem no_subq_no_outer_aggr_means_no_aggrList :
    ∀ es : ExprList, containsSubqOrSqArgList es = false →
      containsAggrOutsideSubqList es = false →
      containsAggregationList es = false
  | .nil => by intro _ _; rfl
  | .cons e es => by
    intro hs ha
    simp only [containsSubqOrSqArgList, Bool.or_eq_false_iff] at hs
    simp only [containsAggrOutsideSubqList, Bool.or_eq_false_iff] at ha
    simp only [containsAggregationList, Bool.or_eq_false_iff]
    exact ⟨no_subq_no_outer_aggr_means_no_aggr e hs.1 ha.1,
      no_subq_no_outer_aggr_means_no_aggrList es hs.2 ha.2⟩
end

mutual
theorem walkInvalidGrouping_subq_no_aggr (outer : Expr) :
    ∀ e : Expr, containsSubqOrSqArg e = true → containsAggrOutsideSubq e = false →
      walkInvalidGrouping outer e = some ⟨.vt12001, "subqueries in GROUP BY"⟩
  | .colName nm q => by intro h _; simp [containsSubqOrSqArg] at h
  | .aggrFunc nm h args d => by intro _ ha; simp [containsAggrOutsideSubq] at ha
  | .subquery i => by intro _ _; rfl
  | .argument nm => by
    intro h _
    simp only [containsSubqOrSqArg] at h
    simp [walkInvalidGrouping, h]
  | .nullVal => by intro h _; simp [containsSubqOrSqArg] at h
  | .funcCall nm args => by
    intro h ha
    simp only [containsSubqOrSqArg] at h
    simp only [containsAggrOutsideSubq] at ha
    exact walkInvalidGroupingList_subq_no_aggr outer args h ha
  | .literal v => by intro h _; simp [containsSubqOrSqArg] at h

theorem walkInvalidGroupingList_subq_no_aggr (outer : Expr) :
    ∀ es : ExprList, containsSubqOrSqArgList es = true →
      containsAggrOutsideSubqList es = false →
      walkInvalidGroupingList outer es = some ⟨.vt12001, "subqueries in GROUP BY"⟩
  | .nil => by intro h _; simp [containsSubqOrSqArgList] at h
  | .cons e es => by
    intro h ha
    simp only [containsSubqOrSqArgList, Bool.or_eq_true] at h
    simp only [containsAggrOutsideSubqList, Bool.or_eq_false_iff] at ha
    cases hse : containsSubqOrSqArg e with
    | true =>
      have hsome := walkInvalidGrouping_subq_no_aggr outer e hse ha.1
      simp [walkInvalidGroupingList, hsome]
    | false =>
      have hrest : containsSubqOrSqArgList es = true := by
        rcases h with h | h
        · rw [hse] at h
          exact absurd h (by simp)
        · exact h
      have hagg : containsAggregation e = false :=
        no_subq_no_outer_aggr_means_no_aggr e hse ha.1
      have hnone : walkInvalidGrouping outer e = none :=
        (walkInvalidGrouping_none_iff outer e).mpr ⟨hagg, hse⟩
      have hlist := walkInvalidGroupingList_subq_no_aggr outer es hrest ha.2
      simp [walkInvalidGroupingList, hnone, hlist]
end

mutual
theorem walkInvalidAggregations_none_iff :
    ∀ e : Expr, walkInvalidAggregations e = none ↔ containsBadArityAggr e = false
  | .colName nm q => by simp [walkInvalidAggregations, containsBadArityAggr]
  | .aggrFunc nm hasArgs args d => by
    by_cases hb : (hasArgs && args.length != 1) = true
    · simp [walkInvalidAggregations, containsBadArityAggr, hb]
    · have hb2 : (hasArgs && args.length != 1) = false := by simpa using hb
      simpa [walkInvalidAggregations, containsBadArityAggr, hb2] using
        walkInvalidAggregationsList_none_iff args
  | .subquery i => by
    simpa [walkInvalidAggregations, containsBadArityAggr] using
      walkInvalidAggregations_none_iff i
  | .argument nm => by simp [walkInvalidAggregations, containsBadArityAggr]
  | .nullVal => by simp [walkInvalidAggregations, containsBadArityAggr]
  | .funcCall nm args => by
    simpa [walkInvalidAggregations, containsBadArityAggr] using
      walkInvalidAggregationsList_none_iff args
  | .literal v => by simp [walkInvalidAggregations, containsBadArityAggr]

theorem walkInvalidAggregationsList_none_iff :
    ∀ es : ExprList, walkInvalidAggregationsList es = none ↔
      containsBadArityAggrList es = false
  | .nil => by simp [walkInvalidAggregationsList, containsBadArityAggrList]
  | .cons e es => by
    have ih1 := walkInvalidAggregations_none_iff e
    have ih2 := walkInvalidAggregationsList_none_iff es
    simp only [walkInvalidAggregationsList, containsBadArityAggrList, Bool.or_eq_false_iff]
    cases hw : walkInvalidAggregations e with
    | some err =>
      constructor
      · intro h
        exact absurd h (by simp)
      · rintro ⟨ha, -⟩
        have : walkInvalidAggregations e = none := ih1.mpr ha
        rw [hw] at this
        exact absurd this (by simp)
    | none =>
      rw [ih2]
      exact ⟨fun hb => ⟨ih1.mp hw, hb⟩, fun h => h.2⟩
end

mutual
theorem walkInvalidAggregations_err_code :
    ∀ (e : Expr) (err : VtError), walkInvalidAggregations e = some err →
      err.code = .vt03001
  | .colName nm q => by intro err h; simp [walkInvalidAggregations] at h
  | .aggrFunc nm hasArgs args d => by
    intro err h
    by_cases hb : (hasArgs && args.length != 1) = true
    · simp only [walkInvalidAggregations, hb, if_true] at h
      rw [← Option.some.inj h]
    · have hb2 : (hasArgs && args.length != 1) = false := by simpa using hb
      simp only [walkInvalidAggregations, hb2, Bool.false_eq_true, if_false] at h
      exact walkInvalidAggregationsList_err_code args err h
  | .subquery i => by
    intro err h
    simp only [walkInvalidAggregations] at h
    exact walkInvalidAggregations_err_code i err h
  | .argument nm => by intro err h; simp [walkInvalidAggregations] at h
  | .nullVal => by intro err h; simp [walkInvalidAggregations] at h
  | .funcCall nm args => by
    intro err h
    simp only [walkInvalidAggregations] at h
    exact walkInvalidAggregationsList_err_code args err h
  | .literal v => by intro err h; simp [walkInvalidAggregations] at h

theorem walkInvalidAggregationsList_err_code :
    ∀ (es : ExprList) (err : VtError), walkInvalidAggregationsList es = some err →
      err.code = .vt03001
  | .nil => by intro err h; simp [walkInvalidAggregationsList] at h
  | .cons e es => by
    intro err h
    cases hw : walkInvalidAggregations e with
    | some err2 =>
      simp only [walkInvalidAggregationsList, hw] at h
      exact Option.some.inj h ▸ walkInvalidAggregations_err_code e err2 hw
    | none =>
      simp only [walkInvalidAggregationsList, hw] at h
      exact walkInvalidAggregationsList_err_code es err h
end

/-- Claim C6 (amended): query-projection construction fails with `VT03005`
for a GROUP BY expression containing an aggregate when no subquery (or
`__sq` argument) precedes it in the walk, with `VT12001` for one containing
a subquery or `__sq` argument when no aggregate precedes it — the walk
aborts at the first offending node, so a subquery containing an aggregate
yields `VT12001`, and aggregates inside subqueries do not disturb the
`VT12001` outcome; a select expression fails with `VT03001` exactly when it
contains an aggregate whose argument list is non-nil and of length different
from one; and using a star select expression as an aliased expression fails
with `VT12001` ("'*' expression in cross-shard query"). -/
theorem queryProjection_invalid_construction_errors (e ae : Expr) (t : String) :
    (checkForInvalidGroupingExpressions e = .ok () ↔
      containsAggregation e = false ∧ containsSubqOrSqArg e = false) ∧
    (containsAggregation e = true → containsSubqOrSqArg e = false →
      checkForInvalidGroupingExpressions e = .error ⟨.vt03005, sqlString e⟩) ∧
    (containsSubqOrSqArg e = true → containsAggrOutsideSubq e = false →
      checkForInvalidGroupingExpressions e = .error ⟨.vt12001, "subqueries in GROUP BY"⟩) ∧
    (checkForInvalidAggregations ae = .ok () ↔ containsBadArityAggr ae = false) ∧
    (∀ err, checkForInvalidAggregations ae = .error err → err.code = .vt03001) ∧
    SelectExpr.GetAliasedExpr ⟨.starExpr t, false⟩ =
      .error ⟨.vt12001, "'*' expression in cross-shard query"⟩ := by
  refine ⟨?_, ?_, ?_, ?_, ?_, rfl⟩
  · unfold checkForInvalidGroupingExpressions
    cases hw : walkInvalidGrouping e e with
    | some err =>
      constructor
      · intro h
        exact absurd h (by simp)
      · intro h
        have hn := (walkInvalidGrouping_none_iff e e).mpr h
        rw [hw] at hn
        exact absurd hn (by simp)
    | none => simp [(walkInvalidGrouping_none_iff e e).mp hw]
  · intro ha hs
    unfold checkForInvalidGroupingExpressions
    rw [walkInvalidGrouping_aggr_no_subq e e ha hs]
  · intro hs ha
    unfold checkForInvalidGroupingExpressions
    rw [walkInvalidGrouping_subq_no_aggr e e hs ha]
  · unfold checkForInvalidAggregations
    cases hw : walkInvalidAggregations ae with
    | some err =>
      constructor
      · intro h
        exact absurd h (by simp)
      · intro h
        have hn := (walkInvalidAggregations_none_iff ae).mpr h
        rw [hw] at hn
        exact absurd hn (by simp)
    | none => simp [(walkInvalidAggregations_none_iff ae).mp hw]
  · intro err h
    have hcase : walkInvalidAggregations ae = some err := by
      unfold checkForInvalidAggregations at h
      cases hw : walkInvalidAggregations ae with
      | some err2 =>
        rw [hw] at h
        exact congrArg some (Except.error.inj h)
      | none =>
        rw [hw] at h
        exact absurd h (by simp)
    exact walkInvalidAggregations_err_code ae err hcase

/-- Counterexample to claim C6 as stated: `GROUP BY (select count(x) ...)`
contains an aggregate function, yet the check fails with `VT12001` (the
subquery is reached first), not `VT03005`. -/
theorem groupBy_subquery_with_aggregate_yields_vt12001 :
    containsAggregation
      (.subquery (.aggrFunc "count" true (.cons (.colName "x" "") .nil) false)) = true ∧
    checkForInvalidGroupingExpressions
        (.subquery (.aggrFunc "count" true (.cons (.colName "x" "") .nil) false)) =
      .error ⟨.vt12001, "subqueries in GROUP BY"⟩ ∧
    ErrCode.vt12001 ≠ ErrCode.vt03005 := by
  exact ⟨rfl, rfl, by decide⟩

theorem addOrderBy_foldl_spec (sel0 : List SelectExpr) :
    ∀ (orderBy : List Order) (qp : QueryProjection) (b : Bool),
      qp.SelectExprs = sel0 →
      ((orderBy.foldl addOrderByStep (qp, b)).1.SelectExprs = sel0 ∧
        (orderBy.foldl addOrderByStep (qp, b)).1.OrderExprs =
          qp.OrderExprs ++
            (orderBy.filter
              (fun o => ! IsNull (simplifyWithSelectExprs sel0 o.expr))).map
              (fun o => ⟨o, simplifyWithSelectExprs sel0 o.expr⟩) ∧
        (orderBy.foldl addOrderByStep (qp, b)).2 =
          (b && (orderBy.filter
            (fun o => ! IsNull (simplifyWithSelectExprs sel0 o.expr))).all
            (fun o => ! containsAggregation (simplifyWithSelectExprs sel0 o.expr)))) := by
  intro orderBy
  induction orderBy with
  | nil =>
    intro qp b hsel
    simp [hsel]
  | cons o rest ih =>
    intro qp b hsel
    have hsimp : qp.GetSimplifiedExpr o.expr = simplifyWithSelectExprs sel0 o.expr := by
      rw [QueryProjection.GetSimplifiedExpr, hsel]
    by_cases hnull : IsNull (simplifyWithSelectExprs sel0 o.expr) = true
    · have hstep : addOrderByStep (qp, b) o = (qp, b) := by
        simp [addOrderByStep, hsimp, hnull]
      rw [List.foldl_cons, hstep]
      have hrec := ih qp b hsel
      simpa [List.filter_cons, hnull] using hrec
    · have hnull2 : IsNull (simplifyWithSelectExprs sel0 o.expr) = false := by
        simpa using hnull
      have hstep : addOrderByStep (qp, b) o =
          ({ qp with OrderExprs :=
              qp.OrderExprs ++ [⟨o, simplifyWithSelectExprs sel0 o.expr⟩] },
            b && ! containsAggregation (simplifyWithSelectExprs sel0 o.expr)) := by
        simp [addOrderByStep, hsimp, hnull2]
      rw [List.foldl_cons, hstep]
      obtain ⟨h1, h2, h3⟩ := ih
        { qp with OrderExprs :=
            qp.OrderExprs ++ [⟨o, simplifyWithSelectExprs sel0 o.expr⟩] }
        (b && ! containsAggregation (simplifyWithSelectExprs sel0 o.expr))
        (by simpa using hsel)
      refine ⟨h1, ?_, ?_⟩
      · rw [h2]
        simp [List.filter_cons, hnull2, List.append_assoc]
      · rw [h3]
        simp [List.filter_cons, hnull2, Bool.and_assoc]

/-- Claim C7: after ORDER BY analysis, `CanPushDownSorting` is true exactly
when no retained ORDER BY entry's simplified expression (the underlying
select expression after resolving an unqualified column alias) contains an
aggregation; `ORDER BY NULL` entries are dropped and do not affect the
flag. -/
theorem addOrderBy_canPushDownSorting_iff (qp : QueryProjection) (orderBy : List Order) :
    ((qp.addOrderBy orderBy).CanPushDownSorting = true ↔
      ∀ o ∈ orderBy.filter (fun o => ! IsNull (qp.GetSimplifiedExpr o.expr)),
        containsAggregation (qp.GetSimplifiedExpr o.expr) = false) ∧
    (qp.addOrderBy orderBy).OrderExprs =
      qp.OrderExprs ++
        (orderBy.filter (fun o => ! IsNull (qp.GetSimplifiedExpr o.expr))).map
          (fun o => ⟨o, qp.GetSimplifiedExpr o.expr⟩) := by
  obtain ⟨h1, h2, h3⟩ := addOrderBy_foldl_spec qp.SelectExprs orderBy qp true rfl
  constructor
  · show (orderBy.foldl addOrderByStep (qp, true)).2 = true ↔ _
    rw [h3]
    simp only [Bool.true_and, List.all_eq_true, QueryProjection.GetSimplifiedExpr]
    constructor
    · intro h o ho
      simpa using h o ho
    · intro h o ho
      simpa using h o ho
  · show (orderBy.foldl addOrderByStep (qp, true)).1.OrderExprs = _
    rw [h2]
    simp only [QueryProjection.GetSimplifiedExpr]

/-- Modelled from the spec: the `go/vt/throttler` implementation is not
under src (only `throttler_test.go` is). Per §4.8 each thread is a chunked
token bucket: a thread of rate `r` divides each 1-second window into `r`
equal chunks (in milliseconds, chunk size `1000 / r`) with one admission per
chunk; `lastChunkUsed` remembers the chunk that consumed its token. -/
structure ThreadThrottler where
  maxRate : Nat
  lastChunkUsed : Option Nat
  deriving DecidableEq, Repr

/-- Modelled from the spec: `threadThrottler.throttle(now)` (not under src).
Zero rate always backs off a full second (zero-rate-no-progress mode);
otherwise the current chunk admits once and a repeat request is told to wait
until the next chunk boundary. Times and backoffs are in milliseconds;
`none` is NotThrottled. -/
def threadThrottle (t : ThreadThrottler) (now : Nat) : Option Nat × ThreadThrottler :=
  if t.maxRate = 0 then (some 1000, t)
  else
    let chunkSize := 1000 / t.maxRate
    let c := now / chunkSize
    if t.lastChunkUsed = some c then (some ((c + 1) * chunkSize - now), t)
    else (none, { t with lastChunkUsed := some c })

/-- Modelled from the spec: the per-thread rate, `floor(maxQPS/threadCount)`
plus one extra token for the first `maxQPS mod threadCount` thread ids. -/
def threadRate (threadCount q i : Nat) : Nat :=
  q / threadCount + (if i < q % threadCount then 1 else 0)

/-- Modelled from the spec: the throttler is one `threadThrottler` per
thread id. -/
structure Throttler where
  threadThrottlers : List ThreadThrottler
  deriving DecidableEq, Repr

/-- Modelled from the spec: `newThrottler(threadCount, maxQPS)`; a zero
`maxQPS` keeps every rate at zero, and a `maxQPS` below `threadCount` is
raised to `threadCount` so no thread starves. -/
def newThrottler (threadCount maxQPS : Nat) : Throttler :=
  let q := if maxQPS = 0 then 0 else max maxQPS threadCount
  ⟨(List.range threadCount).map (fun i => ⟨threadRate threadCount q i, none⟩)⟩

/-- Modelled from the spec: `Throttler.Throttle(threadID)` at the fake-clock
instant `now`, delegating to the thread's own throttler. -/
def Throttler.Throttle (th : Throttler) (threadID : Nat) (now : Nat) :
    Option Nat × Throttler :=
  match th.threadThrottlers.get? threadID with
  | none => (none, th)
  | some t =>
    let out := threadThrottle t now
    (out.1, ⟨th.threadThrottlers.set threadID out.2⟩)

/-- Repeatedly call `Throttle(threadID)` at the fixed instant `now` until
the first backoff, counting the admissions (fuel-bounded). -/
def drain (fuel : Nat) (th : Throttler) (threadID now : Nat) : Nat × Throttler :=
  match fuel with
  | 0 => (0, th)
  | fuel2 + 1 =>
    match th.Throttle threadID now with
    | (none, th2) =>
      let out := drain fuel2 th2 threadID now
      (out.1 + 1, out.2)
    | (some _, th2) => (0, th2)

/-- Run a sequence of `(threadID, now)` drains, returning each drain's
admission count. -/
def drainSeq : List (Nat × Nat) → Throttler → List Nat × Throttler
  | [], th => ([], th)
  | (i, now) :: rest, th =>
    let out := drain 10 th i now
    let next := drainSeq rest out.2
    (out.1 :: next.1, next.2)

/-- Claim C8: with `threadCount` threads and `maxQPS = Q ≥ threadCount > 0`,
thread `i` is granted `Q / threadCount` tokens per second plus one extra for
the first `Q mod threadCount` ids; concretely, with 3 threads and 5 QPS the
rates are 2, 2, 1, so draining every thread at 1000 ms admits one request
each (3 in the first 500 ms chunk) and draining again at 1500 ms admits one
more on threads 0 and 1 and none on thread 2 (2 more in the second chunk). -/
theorem throttler_rate_remainder_distribution (n Q i : Nat)
    (hn : 0 < n) (hq : n ≤ Q) (hi : i < n) :
    (newThrottler n Q).threadThrottlers.get? i =
      some ⟨Q / n + (if i < Q % n then 1 else 0), none⟩ ∧
    (drainSeq [(0, 1000), (1, 1000), (2, 1000), (0, 1500), (1, 1500), (2, 1500)]
        (newThrottler 3 5)).1 = [1, 1, 1, 1, 1, 0] := by
  constructor
  · have hq0 : ¬Q = 0 := by omega
    have hmax : max Q n = Q := Nat.max_eq_left hq
    have hrange : (List.range n)[i]? = some i := List.getElem?_range hi
    simp [newThrottler, hq0, hmax, List.getElem?_map, hrange, threadRate]
  · rfl

/-- Witness for C8: the rates of the 3-thread, 5-QPS throttler are 2, 2 and
1, and the concrete two-chunk admission schedule holds. -/
theorem throttler_rate_remainder_distribution_witness :
    (newThrottler 3 5).threadThrottlers.get? 0 =
      some ⟨5 / 3 + (if 0 < 5 % 3 then 1 else 0), none⟩ ∧
    (drainSeq [(0, 1000), (1, 1000), (2, 1000), (0, 1500), (1, 1500), (2, 1500)]
        (newThrottler 3 5)).1 = [1, 1, 1, 1, 1, 0] :=
  throttler_rate_remainder_distribution 3 5 0 (by decide) (by decide) (by decide)

/-- Modelled from the spec: a Go context as the consistent-lookup vindex
sees it — either the detached background context or one carrying the
caller's identity (`go/vt/vtgate/vindexes/consistent_lookup.go` is not
under src; only the repository's reproduction document is). -/
inductive CallerCtx where
  | background
  | withCaller (id : String)
  deriving DecidableEq, Repr

/-- Modelled from the spec: the backend's handling of the liveness SELECT.
When table ACLs enforce caller identity, a query arriving under the
background context fails with "missing caller id"; under a caller context
it answers whether the owner row referenced by the existing lookup row is
still live. -/
def backendLivenessSelect (enforceACL : Bool) (ctx : CallerCtx) (rowLive : Bool) :
    Except VtError Bool :=
  match ctx with
  | .background =>
    if enforceACL then .error ⟨.permissionDenied, "missing caller id"⟩ else .ok rowLive
  | .withCaller _ => .ok rowLive

/-- Modelled from the spec: the duplicate-key path of the consistent-lookup
insert (`handleDup`): read the existing lookup row and check liveness under
`liveCheckCtx`; a live owner row fails with `AlreadyExists` (the backend's
duplicate-entry message), a stale lookup row is overwritten and the insert
proceeds. -/
def handleDup (liveCheckCtx : CallerCtx) (enforceACL : Bool) (rowLive : Bool) :
    Except VtError Unit :=
  match backendLivenessSelect enforceACL liveCheckCtx rowLive with
  | .error e => .error e
  | .ok true => .error ⟨.alreadyExists, "duplicate entry"⟩
  | .ok false => .ok ()

/-- The shipped code: `handleDup` performs the liveness check under
`context.Background()` regardless of the caller's context (the repository's
reproduction document instructs changing line 364 to pass `ctx` instead). -/
def handleDupAsShipped (callerCtx : CallerCtx) (enforceACL : Bool) (rowLive : Bool) :
    Except VtError Unit :=
  handleDup .background enforceACL rowLive

/-- The behaviour the spec mandates: the liveness check runs under the
original caller's context. -/
def handleDupSpec (callerCtx : CallerCtx) (enforceACL : Bool) (rowLive : Bool) :
    Except VtError Unit :=
  handleDup callerCtx enforceACL rowLive

/-- Claim C3: at the failing input (duplicate insert of a live owner row
under caller-id-enforcing ACLs), the shipped detached-context `handleDup`
surfaces "missing caller id", while the spec-mandated propagation of the
caller context yields the `AlreadyExists` duplicate-entry error; without ACL
enforcement the two agree. -/
theorem handleDup_detached_context_breaks_acl :
    handleDupAsShipped (.withCaller "mysql_user") true true =
      .error ⟨.permissionDenied, "missing caller id"⟩ ∧
    handleDupSpec (.withCaller "mysql_user") true true =
      .error ⟨.alreadyExists, "duplicate entry"⟩ ∧
    handleDupAsShipped (.withCaller "mysql_user") false true =
      handleDupSpec (.withCaller "mysql_user") false true := by
  exact ⟨rfl, rfl, rfl⟩

/-- Claim C1: for every keyspace whose shard list partitions the full key
space with no overlap and no gap, and for every byte sequence `b`, resolving
`DestinationKeyspaceID(b)` against that shard list emits exactly one shard
name — that of a shard whose key range contains `b` — and leaves the slice
untouched; with an empty shard list it returns an `Unavailable` error. -/
theorem destinationKeyspaceID_resolves_to_containing_shard
    (pick : Nat → Nat) (shards : List ShardReference) (b : List Nat)
    (h : isPartition shards = true) :
    (∃ s ∈ shards,
        Destination.Resolve pick (.keyspaceID b) shards = ⟨[s.name], none, shards⟩ ∧
        GetShardForKeyspaceID shards b = .ok s.name ∧
        KeyRangeContains s.keyRange b = true) ∧
      Destination.Resolve pick (.keyspaceID b) [] =
        ⟨[], some ⟨.unavailable, "no shard in keyspace"⟩, []⟩ := by
  constructor
  · have hex := coversFrom_exists_containing shards [] b h (byteLE_nil b)
    have hne : shards.isEmpty = false := by
      cases shards with
      | nil => simp [isPartition, coversFrom] at h
      | cons _ _ => rfl
    cases hfind : shards.find? (fun s => KeyRangeContains s.keyRange b) with
    | none =>
      obtain ⟨s, hs, hcont⟩ := hex
      exact absurd hcont (by simpa using List.find?_eq_none.mp hfind s hs)
    | some s =>
      have hq : KeyRangeContains s.keyRange b = true := by
        have := List.find?_some hfind
        simpa using this
      have hok : GetShardForKeyspaceID shards b = .ok s.name := by
        simp [GetShardForKeyspaceID, hne, hfind]
      exact ⟨s, List.mem_of_find?_eq_some hfind,
        by simp [Destination.Resolve, hok], hok, hq⟩
  · rfl

/-- Witness for C1: the two-shard split `[-80, 80-]` partitions the key
space, and the keyspace id `0x40` resolves to the `-80` shard alone. -/
theorem destinationKeyspaceID_resolves_to_containing_shard_witness :
    isPartition [⟨"-80", ⟨[], [0x80]⟩⟩, ⟨"80-", ⟨[0x80], []⟩⟩] = true ∧
      (∃ s ∈ [ShardReference.mk "-80" ⟨[], [0x80]⟩, ⟨"80-", ⟨[0x80], []⟩⟩],
        Destination.Resolve (fun _ => 0) (.keyspaceID [0x40])
            [⟨"-80", ⟨[], [0x80]⟩⟩, ⟨"80-", ⟨[0x80], []⟩⟩] =
          ⟨[s.name], none, [⟨"-80", ⟨[], [0x80]⟩⟩, ⟨"80-", ⟨[0x80], []⟩⟩]⟩ ∧
        GetShardForKeyspaceID [⟨"-80", ⟨[], [0x80]⟩⟩, ⟨"80-", ⟨[0x80], []⟩⟩] [0x40] =
            .ok s.name ∧
          KeyRangeContains s.keyRange [0x40] = true) ∧
      Destination.Resolve (fun _ => 0) (.keyspaceID [0x40]) [] =
        ⟨[], some ⟨.unavailable, "no shard in keyspace"⟩, []⟩ :=
  ⟨by decide,
    destinationKeyspaceID_resolves_to_containing_shard
      (fun _ => 0) [⟨"-80", ⟨[], [0x80]⟩⟩, ⟨"80-", ⟨[0x80], []⟩⟩] [0x40] (by decide)⟩
